import Mathlib

/-!
Verification of the ECG dataset-generation and inference toolkit
(`patch_aligned_ecg_generation.py`, `patch_aligned_inference.py`,
`precision_inference.py`, `src/serve/app.py`).

The development shallowly embeds the pixel/time coordinate mapping core:
the pixel downsampler, the annotation rescaler, the wave-triplet grouper,
the coordinate tag serializer, the regex-based coordinate extractors, and
the conversation pair shuffler.  Python machine integers are modelled by
`Nat` (all quantities involved are nonnegative pixel/sample indices),
float arithmetic of the downsampler by `ℚ` (exact linear interpolation;
only length/shape properties are asserted about it), and the regex
matchers by an explicit backtracking matcher mirroring Python `re`
leftmost, quantifier-priority semantics for the fixed patterns that occur
in the source.
-/

/-- Decimal rendering of a natural number, one digit per character:
the embedding of Python `str` on the (nonnegative) ints that reach the
f-string serializer.  The first argument is fuel for structural
recursion; `n` has at most `n` decimal digits, so `pyStr` passes `n`
itself and the fuel never runs out. -/
def pyStrAux : Nat → Nat → List Char → List Char
  | 0, _, acc => acc
  | fuel + 1, n, acc =>
      if n = 0 then acc
      else pyStrAux fuel (n / 10) (Char.ofNat ('0'.toNat + n % 10) :: acc)

/-- Python `str(n)` for a nonnegative int `n`. -/
def pyStr (n : Nat) : String := if n = 0 then "0" else ⟨pyStrAux n n []⟩

/-- One serialized coordinate tag, from `build_patch_aware_questions`
(`patch_aligned_ecg_generation.py` line 156): the f-string
`<points x1="{a}" x2="{b}" x3="{c}" alt="{w}">{w}</points>` applied to
`triplet_int = [int(x) for x in triplet]` (the coordinates reaching it are
nonnegative pixel indices, so the `int` cast is the identity and the
triplet is modelled as `List Nat`). -/
def serializeTriplet (triplet : List Nat) (wave_type : String) : String :=
  "<points x1=\"" ++ pyStr (triplet.getD 0 0) ++
  "\" x2=\"" ++ pyStr (triplet.getD 1 0) ++
  "\" x3=\"" ++ pyStr (triplet.getD 2 0) ++
  "\" alt=\"" ++ wave_type ++ "\">" ++ wave_type ++ "</points>"

/-- The `tags` accumulation loop of `build_patch_aware_questions`
(lines 152-157): triplets that are 3-element lists are serialized and
concatenated, others are skipped. -/
def buildWaveTags (triplets : List (List Nat)) (wave_type : String) : String :=
  triplets.foldl
    (fun tags tr =>
      if tr.length = 3 then tags ++ serializeTriplet tr wave_type else tags)
    ""

/-- The three wave buckets of the `waves` dict
(`patch_aligned_ecg_generation.py` line 266). -/
inductive WaveType
  | QRS
  | P
  | T
deriving DecidableEq, Repr

/-- The `waves` dict `{'QRS': [], 'P': [], 'T': []}` of grouped triplets. -/
structure WavesDict where
  qrs : List (List Nat)
  p : List (List Nat)
  t : List (List Nat)
deriving DecidableEq, Repr

/-- Bucket accessor for `WavesDict`. -/
def WavesDict.get (d : WavesDict) : WaveType → List (List Nat)
  | WaveType.QRS => d.qrs
  | WaveType.P => d.p
  | WaveType.T => d.t

/-- The initial empty `waves` dict. -/
def emptyWaves : WavesDict := ⟨[], [], []⟩

/-- `waves[w].append(tr)`, expressed head-first so that a scan that
recurses on the remaining events and conses its own triplet in front
lists triplets in scan order. -/
def addWave (w : WaveType) (tr : List Nat) (d : WavesDict) : WavesDict :=
  match w with
  | WaveType.QRS => { d with qrs := tr :: d.qrs }
  | WaveType.P => { d with p := tr :: d.p }
  | WaveType.T => { d with t := tr :: d.t }

/-- `sym2.upper() in ['N', 'V', 'A']` (line 277): the QRS type codes,
case-insensitive. -/
def isQRScode (c : Char) : Bool :=
  c.toUpper = 'N' || c.toUpper = 'V' || c.toUpper = 'A'

/-- The wave-triplet grouping scan of `patch_aligned_ecg_generation.py`
lines 271-292: `while i + 2 < len(scaled_annotations)` examines the
3-element window at `i`; on the pattern `(`/type-code/`)` the triplet is
appended to the matching bucket and `i += 3`, otherwise `i += 1`.
QRS codes are matched case-insensitively, `p` and `t` exactly. -/
def wavesScan : List (Nat × Char) → WavesDict
  | e1 :: e2 :: e3 :: rest =>
      if e1.2 = '(' && isQRScode e2.2 && e3.2 = ')' then
        addWave WaveType.QRS [e1.1, e2.1, e3.1] (wavesScan rest)
      else if e1.2 = '(' && e2.2 = 'p' && e3.2 = ')' then
        addWave WaveType.P [e1.1, e2.1, e3.1] (wavesScan rest)
      else if e1.2 = '(' && e2.2 = 't' && e3.2 = ')' then
        addWave WaveType.T [e1.1, e2.1, e3.1] (wavesScan rest)
      else
        wavesScan (e2 :: e3 :: rest)
  | _ => emptyWaves

/-- The annotation rescaler of `patch_aligned_ecg_generation.py` lines
260-262: `pixel_idx = int(sample_idx / SAMPLES_PER_PIXEL)` followed by
`pixel_idx = max(0, min(pixel_idx, FIXED_WIDTH - 1))`.  `sample_idx` is a
nonnegative in-window offset, so the float division truncates to the
floor, which is `Nat` division. -/
def rescalePixel (sample_idx samples_per_pixel width : Nat) : Nat :=
  max 0 (min (sample_idx / samples_per_pixel) (width - 1))

/-- The rescaling loop over `ann_in_window` (lines 258-263). -/
def rescaleEvents (events : List (Nat × Char))
    (samples_per_pixel width : Nat) : List (Nat × Char) :=
  events.map (fun e => (rescalePixel e.1 samples_per_pixel width, e.2))

/-- The combined rescale-then-group pipeline of the main loop
(lines 258-292). -/
def pipelineWaves (events : List (Nat × Char))
    (samples_per_pixel width : Nat) : WavesDict :=
  wavesScan (rescaleEvents events samples_per_pixel width)

/-- `FS = 500` (sampling rate, Hz). -/
def FS : Nat := 500

/-- `WINDOW_SEC = 2`. -/
def WINDOW_SEC : Nat := 2

/-- `samples_per_window = FS * WINDOW_SEC` (line 52). -/
def samples_per_window : Nat := FS * WINDOW_SEC

/-- `PATCH_SIZE = 28`. -/
def PATCH_SIZE : Nat := 28

/-- One entry of `GRANULARITY_OPTIONS`. -/
structure GranularityCfg where
  width : Nat
  height : Nat
  samples_per_pixel : Nat
deriving DecidableEq, Repr

/-- The `GRANULARITY_OPTIONS` dict (lines 22-27). -/
def GRANULARITY_OPTIONS (name : String) : Option GranularityCfg :=
  if name = "ultra_fine" then some ⟨28 * 36, 28 * 8, 1⟩
  else if name = "fine" then some ⟨28 * 18, 28 * 8, 2⟩
  else if name = "medium" then some ⟨28 * 10, 28 * 8, 4⟩
  else if name = "coarse" then some ⟨28 * 9, 28 * 8, 5⟩
  else none

/-- `MS_PER_PIXEL = (1000 / FS) * SAMPLES_PER_PIXEL` (line 36); the float
arithmetic on these small powers-of-ten values is exact, so it is
modelled in `ℚ`. -/
def msPerPixel (samples_per_pixel : Nat) : ℚ :=
  (1000 / (FS : ℚ)) * samples_per_pixel

/-- `pairwise_shuffle` (lines 192-201).  `random.shuffle(pairs)` replaces
the list `pairs = list(range(0, len(convo), 2))` by an arbitrary
permutation of itself, so the shuffled order is passed in as the `pairs`
argument (theorems hypothesise that it is a permutation of the original
even start indices).  The `assert len(convo) % 2 == 0` is modelled by
returning `none` (an `AssertionError`) on odd length. -/
def pairwise_shuffle {α : Type} [Inhabited α]
    (convo : List α) (pairs : List Nat) : Option (List α) :=
  if convo.length % 2 = 0 then
    some (pairs.flatMap (fun i => [convo.getD i default, convo.getD (i + 1) default]))
  else none

/-- `list(range(0, n, 2))` for even `n`: the pair start indices. -/
def pairStarts (n : Nat) : List Nat := (List.range (n / 2)).map (· * 2)

/-- Grouping a flat conversation into its consecutive (human, gpt)
pairs; used to state what `pairwise_shuffle` preserves. -/
def chunkPairs {α : Type} : List α → List (α × α)
  | a :: b :: rest => (a, b) :: chunkPairs rest
  | _ => []

/-- Token language covering exactly the regex constructs that occur in
the coordinate patterns of the source: case-insensitive and
case-sensitive literals, greedy one-or-more and zero-or-more over a
one-character class, a single class character, the lazy `.*?`, and the
`\d+(?:\.\d+)?` decimal-number group of `precision_inference.py`. -/
inductive RTok
  | lit (s : List Char)
  | exact (s : List Char)
  | plusCls (p : Char → Bool) (cap : Bool)
  | starCls (p : Char → Bool)
  | oneCls (p : Char → Bool) (cap : Bool)
  | lazyAny
  | decNum (cap : Bool)

/-- Case-insensitive literal-prefix test (`re.IGNORECASE` on literal
pattern characters). -/
def litAgrees : List Char → List Char → Bool
  | [], _ => true
  | _ :: _, [] => false
  | a :: as, b :: bs => (a.toLower = b.toLower) && litAgrees as bs

/-- Case-sensitive literal-prefix test (patterns compiled without
flags). -/
def litExact : List Char → List Char → Bool
  | [], _ => true
  | _ :: _, [] => false
  | a :: as, b :: bs => (a = b) && litAgrees as bs

/-- Candidate consumed lengths `[hi, hi-1, ..., lo]` for a greedy
quantifier (longest first, backtracking order). -/
def splitLens (hi lo : Nat) : List Nat :=
  ((List.range (hi + 1)).reverse).filter (fun k => lo ≤ k)

/-- Candidate consumed lengths for `\d+(?:\.\d+)?` in backtracking
priority order: the integer part backtracks from its longest run, and
for each integer part the optional fraction is tried greedily before
being dropped. -/
def decNumCands (l : List Char) : List Nat :=
  let dmax := (l.takeWhile Char.isDigit).length
  ((List.range dmax).reverse.map (· + 1)).flatMap (fun d =>
    let rest := l.drop d
    let fracs :=
      match rest with
      | '.' :: r2 =>
          let fmax := (r2.takeWhile Char.isDigit).length
          ((List.range fmax).reverse.map (· + 1)).map (fun f => d + 1 + f)
      | _ => []
    fracs ++ [d])

/-- First `some` value of `f` over a list, in order: the backtracking
search over candidate splits. -/
def firstSome {α β : Type} (f : α → Option β) : List α → Option β
  | [] => none
  | a :: as =>
      match f a with
      | some b => some b
      | none => firstSome f as

/-- Backtracking matcher for a token sequence anchored at the head of
`input`; returns the captured groups in group order and the remaining
input after the match.  Greedy quantifiers try longest splits first and
the lazy `.*?` shortest first, so the first overall success reproduces
Python `re` match priority. -/
def matchToks : List RTok → List Char → Option (List (List Char) × List Char)
  | [], input => some ([], input)
  | RTok.lit s :: ts, input =>
      if litAgrees s input then matchToks ts (input.drop s.length) else none
  | RTok.exact s :: ts, input =>
      if litExact s input then matchToks ts (input.drop s.length) else none
  | RTok.plusCls p cap :: ts, input =>
      firstSome
        (fun k =>
          (matchToks ts (input.drop k)).map
            (fun g => (if cap then input.take k :: g.1 else g.1, g.2)))
        (splitLens (input.takeWhile p).length 1)
  | RTok.starCls p :: ts, input =>
      firstSome (fun k => matchToks ts (input.drop k))
        (splitLens (input.takeWhile p).length 0)
  | RTok.oneCls p cap :: ts, input =>
      match input with
      | [] => none
      | c :: rest =>
          if p c then
            (matchToks ts rest).map
              (fun g => (if cap then [c] :: g.1 else g.1, g.2))
          else none
  | RTok.lazyAny :: ts, input =>
      firstSome (fun k => matchToks ts (input.drop k))
        (List.range ((input.takeWhile (fun c => c != '\n')).length + 1))
  | RTok.decNum cap :: ts, input =>
      firstSome
        (fun k =>
          (matchToks ts (input.drop k)).map
            (fun g => (if cap then input.take k :: g.1 else g.1, g.2)))
        (decNumCands input)

/-- `re.findall`: scan left to right, at each position emit the
leftmost match's groups and resume after the match, otherwise advance
one character.  All patterns in the source consume at least one
character, so the fuel `input.length + 1` used by `findAll` below never
runs out before the scan completes. -/
def findAllAux (toks : List RTok) : Nat → List Char → List (List (List Char))
  | 0, _ => []
  | fuel + 1, input =>
      match matchToks toks input with
      | some (caps, rem) =>
          if rem.length < input.length then caps :: findAllAux toks fuel rem
          else
            match input with
            | [] => [caps]
            | _ :: tl => caps :: findAllAux toks fuel tl
      | none =>
          match input with
          | [] => []
          | _ :: tl => findAllAux toks fuel tl

/-- `re.findall(pattern, text)` over a tokenised pattern. -/
def findAll (toks : List RTok) (text : List Char) : List (List (List Char)) :=
  findAllAux toks (text.length + 1) text

/-- Python `\s` on the ASCII range: space, tab, newline, carriage
return, vertical tab, form feed. -/
def isPySpace (c : Char) : Bool :=
  c = ' ' || c = '\t' || c = '\n' || c = '\r' || c = '\x0b' || c = '\x0c'

/-- `[PQT]` under `re.IGNORECASE`. -/
def isPQT (c : Char) : Bool :=
  c.toUpper = 'P' || c.toUpper = 'Q' || c.toUpper = 'T'

/-- Shorthand: case-insensitive literal token. -/
def L (s : String) : RTok := RTok.lit s.toList

/-- Shorthand: `\s+` (not captured). -/
def spTok : RTok := RTok.plusCls isPySpace false

/-- Shorthand: `(\d+)` captured. -/
def dTok : RTok := RTok.plusCls Char.isDigit true

/-- Pattern 1 of `extract_coordinates_advanced`
(`patch_aligned_inference.py` line 82) and of
`extract_coordinates_from_response` (`app.py` line 85):
`<points\s+x1="(\d+)"\s+x2="(\d+)"\s+x3="(\d+)"\s+alt="([^"]+)"[^>]*>`. -/
def patternTag : List RTok :=
  [L ("<points"), spTok, L ("x1=\""), dTok, L ("\""), spTok,
   L ("x2=\""), dTok, L ("\""), spTok,
   L ("x3=\""), dTok, L ("\""), spTok,
   L ("alt=\""), RTok.plusCls (fun c => c != '\"') true, L ("\""),
   RTok.starCls (fun c => c != '>'), L (">")]

/-- Pattern 2 (line 83 / line 86):
`x1="(\d+)"\s+x2="(\d+)"\s+x3="(\d+)".*?alt="([^"]+)"`. -/
def patternAttrs : List RTok :=
  [L ("x1=\""), dTok, L ("\""), spTok,
   L ("x2=\""), dTok, L ("\""), spTok,
   L ("x3=\""), dTok, L ("\""),
   RTok.lazyAny,
   L ("alt=\""), RTok.plusCls (fun c => c != '\"') true, L ("\"")]

/-- Pattern 3, the fallback (line 84):
`(\d+)\s+(\d+)\s+(\d+).*?([PQT])`. -/
def patternFallback : List RTok :=
  [dTok, spTok, dTok, spTok, dTok, RTok.lazyAny, RTok.oneCls isPQT true]

/-- Decimal value of a digit capture: `int(match[i])` on a `\d+`
group (always succeeds, so total). -/
def digitsToNat (l : List Char) : Nat :=
  l.foldl (fun acc c => acc * 10 + (c.toNat - '0'.toNat)) 0

/-- The per-match body shared by `extract_coordinates_advanced` and
`extract_coordinates_from_response`: convert the three digit groups with
`int`, uppercase the label, and keep the match only if
`0 <= x1 <= x2 <= x3` and the label is one of `P`, `QRS`, `T`; the
`try/except` discards malformed matches instead of raising. -/
def validateMatch (caps : List (List Char)) : Option (Nat × Nat × Nat × String) :=
  match caps with
  | [c1, c2, c3, w] =>
      let x1 := digitsToNat c1
      let x2 := digitsToNat c2
      let x3 := digitsToNat c3
      let wave_type : String := ⟨w.map Char.toUpper⟩
      if x1 ≤ x2 && x2 ≤ x3 &&
          (wave_type = "P" || wave_type = "QRS" || wave_type = "T") then
        some (x1, x2, x3, wave_type)
      else none
  | _ => none

/-- `extract_coordinates_advanced` (`patch_aligned_inference.py` lines
73-100): run `re.findall` for each of the three patterns in order and
collect every validated match. -/
def extract_coordinates_advanced (text : String) : List (Nat × Nat × Nat × String) :=
  [patternTag, patternAttrs, patternFallback].flatMap
    (fun pat => (findAll pat text.toList).filterMap validateMatch)

/-- `extract_coordinates_from_response` (`src/serve/app.py` lines
81-100): identical, but without the fallback pattern. -/
def extract_coordinates_from_response (text : String) : List (Nat × Nat × Nat × String) :=
  [patternTag, patternAttrs].flatMap
    (fun pat => (findAll pat text.toList).filterMap validateMatch)

/-- The pattern of `extract_coordinates` in `precision_inference.py`
line 52: `x\d+="(\d+(?:\.\d+)?)"`, compiled without flags. -/
def patternPrecision : List RTok :=
  [RTok.exact ('x' :: []), RTok.plusCls Char.isDigit false,
   RTok.exact ('=' :: '\"' :: []), RTok.decNum true, RTok.exact ('\"' :: [])]

/-- The capture strings produced by `extract_coordinates`
(`precision_inference.py` lines 50-54).  The source finishes with
`[float(c) for c in coords]`; floats are not modelled, so theorems about
this parser are stated at the level of which coordinate strings the
regex accepts. -/
def extract_coordinates_strs (text : String) : List String :=
  (findAll patternPrecision text.toList).flatMap
    (fun caps => caps.map (fun c => (⟨c⟩ : String)))

/-- `np.linspace(start, stop, num)` with endpoint (the default): exact
in `ℚ`. -/
def linspace (start stop : ℚ) (num : Nat) : List ℚ :=
  if num ≤ 1 then (List.range num).map (fun _ => start)
  else (List.range num).map
    (fun i : Nat => start + (stop - start) * (i : ℚ) / ((num : ℚ) - 1))

/-- `np.interp(q, np.arange(len(fp)), fp)`: clamp outside the grid,
piecewise-linear inside. -/
def interpAt (fp : List ℚ) (q : ℚ) : ℚ :=
  if q ≤ 0 then fp.getD 0 0
  else if ((fp.length : ℚ) - 1) ≤ q then fp.getD (fp.length - 1) 0
  else
    let j := (⌊q⌋).toNat
    fp.getD j 0 + (fp.getD (j + 1) 0 - fp.getD j 0) * (q - (j : ℚ))

/-- `downsample_signal_for_perfect_mapping`
(`patch_aligned_ecg_generation.py` lines 57-76): resample to
`target_width * samples_per_pixel` points by linear interpolation when
the length differs, then average each contiguous `samples_per_pixel`
block into one pixel value (`reshape(target_width, samples_per_pixel)`
followed by a row mean), skipping the averaging when
`samples_per_pixel` is 1. -/
def downsample_signal_for_perfect_mapping (signal : List ℚ)
    (target_width samples_per_pixel : Nat) : List ℚ :=
  let total_samples := signal.length
  let target_samples := target_width * samples_per_pixel
  let resampled :=
    if total_samples = target_samples then signal
    else (linspace 0 ((total_samples : ℚ) - 1) target_samples).map (interpAt signal)
  if 1 < samples_per_pixel then
    (List.range target_width).map (fun i =>
      ((resampled.drop (i * samples_per_pixel)).take samples_per_pixel).foldl (· + ·) 0
        / (samples_per_pixel : ℚ))
  else resampled

lemma validateMatch_valid {caps : List (List Char)} {c : Nat × Nat × Nat × String}
    (h : validateMatch caps = some c) :
    c.1 ≤ c.2.1 ∧ c.2.1 ≤ c.2.2.1 ∧
      (c.2.2.2 = "P" ∨ c.2.2.2 = "QRS" ∨ c.2.2.2 = "T") := by
  rcases caps with _ | ⟨c1, _ | ⟨c2, _ | ⟨c3, _ | ⟨w, _ | ⟨e, tl⟩⟩⟩⟩⟩ <;>
    simp only [validateMatch] at h
  all_goals try exact Option.noConfusion h
  split at h
  · rename_i hcond
    cases h
    simp only [Bool.and_eq_true, Bool.or_eq_true, decide_eq_true_eq] at hcond
    exact ⟨hcond.1.1, hcond.1.2, by tauto⟩
  · exact Option.noConfusion h

lemma extract_advanced_valid (s : String) (c : Nat × Nat × Nat × String)
    (hc : c ∈ extract_coordinates_advanced s) :
    c.1 ≤ c.2.1 ∧ c.2.1 ≤ c.2.2.1 ∧
      (c.2.2.2 = "P" ∨ c.2.2.2 = "QRS" ∨ c.2.2.2 = "T") := by
  simp only [extract_coordinates_advanced, List.mem_flatMap, List.mem_filterMap] at hc
  obtain ⟨pat, -, caps, -, hv⟩ := hc
  exact validateMatch_valid hv

/-- C1 (counterexample): serializing the wave triplet (12, 34, 56) of type
P and parsing the result with `extract_coordinates_advanced` does NOT
yield the single tuple (12, 34, 56, "P"): both the full-tag pattern and
the attributes-only pattern match the same fragment, so the tuple comes
back twice. -/
theorem roundtrip_parse_not_singleton :
    extract_coordinates_advanced (serializeTriplet [12, 34, 56] ("P")) ≠
      [(12, 34, 56, "P")] := by
  have h : extract_coordinates_advanced (serializeTriplet [12, 34, 56] ("P")) =
      [(12, 34, 56, "P"), (12, 34, 56, "P")] := rfl
  rw [h]
  simp

/-- C1 (amended): serializing the wave triplet (12, 34, 56) of type P and
parsing the result with `extract_coordinates_advanced` yields the tuple
(12, 34, 56, "P") exactly twice — once from each of the first two regex
patterns — so every parsed tuple equals the original, but the list has
length two, not one. -/
theorem roundtrip_parse_duplicated :
    extract_coordinates_advanced (serializeTriplet [12, 34, 56] ("P")) =
      [(12, 34, 56, "P"), (12, 34, 56, "P")] := rfl

/-- C2 (counterexample): the extractor applied to the commented tag text
does not return exactly one triplet — the full-tag and attributes-only
patterns both match, giving the triplet twice. -/
theorem extractor_not_single_triplet :
    extract_coordinates_advanced
      ("Some text <points x1=\"5\" x2=\"10\" x3=\"100\" alt=\"qrs\">qrs</points> more text") ≠
      [(5, 10, 100, "QRS")] := by
  have h : extract_coordinates_advanced
      ("Some text <points x1=\"5\" x2=\"10\" x3=\"100\" alt=\"qrs\">qrs</points> more text") =
      [(5, 10, 100, "QRS"), (5, 10, 100, "QRS")] := rfl
  rw [h]
  simp

/-- C2 (amended): the extractor applied to the commented tag text returns
the triplet (5, 10, 100, "QRS") twice (case-insensitive label,
surrounding commentary tolerated, one copy per matching pattern); applied
to the out-of-order fragment it returns zero triplets; and every tuple it
ever returns, on any input, satisfies the coordinate-order and label
validation (malformed fragments only reduce the result count, they are
never propagated). -/
theorem extractor_amended_behavior :
    extract_coordinates_advanced
      ("Some text <points x1=\"5\" x2=\"10\" x3=\"100\" alt=\"qrs\">qrs</points> more text") =
      [(5, 10, 100, "QRS"), (5, 10, 100, "QRS")] ∧
    extract_coordinates_advanced
      ("<points x1=\"10\" x2=\"5\" x3=\"1\" alt=\"P\">P</points>") = [] ∧
    ∀ s : String, ∀ c ∈ extract_coordinates_advanced s,
      c.1 ≤ c.2.1 ∧ c.2.1 ≤ c.2.2.1 ∧
        (c.2.2.2 = "P" ∨ c.2.2.2 = "QRS" ∨ c.2.2.2 = "T") :=
  ⟨rfl, rfl, extract_advanced_valid⟩

/-- C2 (witness for the amended theorem): instantiating the universally
quantified validity clause at a concrete extracted tuple. -/
theorem extractor_amended_behavior_witness :
    (5, 10, 100, "QRS") ∈ extract_coordinates_advanced
      ("Some text <points x1=\"5\" x2=\"10\" x3=\"100\" alt=\"qrs\">qrs</points> more text") ∧
    ((5 : Nat) ≤ 10 ∧ (10 : Nat) ≤ 100 ∧
      ("QRS" = "P" ∨ "QRS" = "QRS" ∨ "QRS" = "T")) :=
  ⟨by decide,
   extractor_amended_behavior.2.2
     ("Some text <points x1=\"5\" x2=\"10\" x3=\"100\" alt=\"qrs\">qrs</points> more text")
     (5, 10, 100, "QRS") (by decide)⟩

/-- C6: the wave-triplet grouper applied to
[(10,'('), (15,'p'), (20,')'), (25,'('), (30,'N'), (35,')')] yields
exactly P = [[10,15,20]], QRS = [[25,30,35]], T = []; the QRS type codes
N/V/A group case-insensitively. -/
theorem grouper_example_eq :
    wavesScan [(10, '('), (15, 'p'), (20, ')'), (25, '('), (30, 'N'), (35, ')')] =
      { qrs := [[25, 30, 35]], p := [[10, 15, 20]], t := [] } ∧
    wavesScan [(1, '('), (2, 'v'), (3, ')')] = { qrs := [[1, 2, 3]], p := [], t := [] } ∧
    wavesScan [(1, '('), (2, 'a'), (3, ')')] = { qrs := [[1, 2, 3]], p := [], t := [] } ∧
    wavesScan [(1, '('), (2, 'N'), (3, ')')] = { qrs := [[1, 2, 3]], p := [], t := [] } := by
  refine ⟨rfl, rfl, rfl, rfl⟩

/-- C9: the granularity named "fine" has width 504, height 224 and 2
samples per pixel; the derived milliseconds-per-pixel value
(1000 / 500) * 2 is exactly 4, and both dimensions are exact multiples of
the patch size 28. -/
theorem fine_granularity_exact :
    GRANULARITY_OPTIONS ("fine") = some ⟨504, 224, 2⟩ ∧
    msPerPixel 2 = 4 ∧
    504 % PATCH_SIZE = 0 ∧ 224 % PATCH_SIZE = 0 := by
  refine ⟨by decide, ?_, by decide, by decide⟩
  norm_num [msPerPixel, FS]

/-- C4: the annotation rescaler computes floor(i / samples_per_pixel)
clamped to [0, width-1], so for any in-window sample index the resulting
pixel index is strictly below the image width. -/
theorem rescale_within_bounds (i S W : Nat) (hS : 1 ≤ S) (hW : 1 ≤ W)
    (hi : i < samples_per_window) :
    rescalePixel i S W = min (i / S) (W - 1) ∧ rescalePixel i S W < W := by
  unfold rescalePixel
  rw [Nat.zero_max]
  exact ⟨rfl, lt_of_le_of_lt (Nat.min_le_right _ _) (by omega)⟩

/-- C4 (witness): the last sample of a 2-second 500 Hz window under the
fine granularity rescales to pixel 499, inside [0, 504). -/
theorem rescale_within_bounds_witness :
    ((1 : Nat) ≤ 2 ∧ (1 : Nat) ≤ 504 ∧ 999 < samples_per_window) ∧
    (rescalePixel 999 2 504 = min (999 / 2) (504 - 1) ∧ rescalePixel 999 2 504 < 504) :=
  ⟨⟨by decide, by decide, by decide⟩,
   rescale_within_bounds 999 2 504 (by decide) (by decide) (by decide)⟩

lemma linspace_length (a b : ℚ) (n : Nat) : (linspace a b n).length = n := by
  unfold linspace
  split <;> rw [List.length_map, List.length_range]

/-- C3: for every non-empty signal window, target width W ≥ 1 and
samples-per-pixel S ≥ 1, the pixel downsampler returns exactly W pixel
values: when the window length differs from W * S it is first linearly
interpolated onto a uniform grid of W * S points, and each contiguous
block of S points is then averaged into one pixel (S = 1 skips the
averaging). -/
theorem downsample_length_eq_width (signal : List ℚ) (W S : Nat)
    (hsig : signal ≠ []) (hW : 1 ≤ W) (hS : 1 ≤ S) :
    (downsample_signal_for_perfect_mapping signal W S).length = W := by
  unfold downsample_signal_for_perfect_mapping
  by_cases hgt : 1 < S
  · simp [hgt]
  · have hS1 : S = 1 := by omega
    subst hS1
    simp only [lt_self_iff_false, if_false]
    split
    · rename_i heq
      omega
    · simp [linspace_length]

/-- C3 (witness): a 3-sample window downsampled to width 2 at 2 samples
per pixel yields exactly 2 pixel values. -/
theorem downsample_length_eq_width_witness :
    (([1, 2, 3] : List ℚ) ≠ [] ∧ (1 : Nat) ≤ 2 ∧ (1 : Nat) ≤ 2) ∧
    (downsample_signal_for_perfect_mapping [1, 2, 3] 2 2).length = 2 :=
  ⟨⟨by decide, by decide, by decide⟩,
   downsample_length_eq_width [1, 2, 3] 2 2 (by decide) (by decide) (by decide)⟩

/-- The bucket the grouper appends to for a matching type code: QRS for
N/V/A (case-insensitive), P for p, T for t. -/
def bucketOf (y : Char) : WaveType :=
  if isQRScode y then WaveType.QRS
  else if y = 'p' then WaveType.P
  else WaveType.T

/-- C7: an unmatched lone onset marker immediately followed by a valid
onset/type-code/offset triplet does not block the scan: the non-matching
first window advances the index by one (without error), after which the
valid triplet is recovered into its bucket and the scan continues past
it. -/
theorem grouper_recovers_after_lone_onset (s0 a b c : Nat) (y : Char)
    (rest : List (Nat × Char))
    (hy : isQRScode y = true ∨ y = 'p' ∨ y = 't') :
    wavesScan ((s0, '(') :: (a, '(') :: (b, y) :: (c, ')') :: rest) =
      addWave (bucketOf y) [a, b, c] (wavesScan rest) := by
  have step1 : wavesScan ((s0, '(') :: (a, '(') :: (b, y) :: (c, ')') :: rest) =
      wavesScan ((a, '(') :: (b, y) :: (c, ')') :: rest) := rfl
  rw [step1]
  rcases hy with h | h | h
  · simp [wavesScan, h, bucketOf]
  · subst h
    rfl
  · subst h
    rfl

/-- C7 (witness): the lone onset at sample 1 is skipped and the QRS
triplet (2, 3, 4) is recovered. -/
theorem grouper_recovers_after_lone_onset_witness :
    (isQRScode 'N' = true ∨ ('N' : Char) = 'p' ∨ ('N' : Char) = 't') ∧
    wavesScan [(1, '('), (2, '('), (3, 'N'), (4, ')')] =
      addWave (bucketOf 'N') [2, 3, 4] (wavesScan []) :=
  ⟨Or.inl (by decide),
   grouper_recovers_after_lone_onset 1 2 3 4 'N' [] (Or.inl (by decide))⟩

lemma mem_addWave_get {w w' : WaveType} {tr t : List Nat} {d : WavesDict}
    (h : tr ∈ (addWave w' t d).get w) : (w = w' ∧ tr = t) ∨ tr ∈ d.get w := by
  cases w <;> cases w' <;> simp_all [addWave, WavesDict.get]

lemma wavesScan_mem_shape (w : WaveType) (tr : List Nat) :
    ∀ l : List (Nat × Char), tr ∈ (wavesScan l).get w →
      ∃ e1 e2 e3 pre post,
        l = pre ++ e1 :: e2 :: e3 :: post ∧ tr = [e1.1, e2.1, e3.1] := by
  intro l
  induction l using wavesScan.induct with
  | case1 e1 e2 e3 rest hc1 ih =>
      intro h
      rw [show wavesScan (e1 :: e2 :: e3 :: rest) =
          addWave WaveType.QRS [e1.1, e2.1, e3.1] (wavesScan rest) from by
        simp [wavesScan, hc1]] at h
      rcases mem_addWave_get h with ⟨-, rfl⟩ | h'
      · exact ⟨e1, e2, e3, [], rest, rfl, rfl⟩
      · obtain ⟨f1, f2, f3, pre, post, heq, htr⟩ := ih h'
        exact ⟨f1, f2, f3, e1 :: e2 :: e3 :: pre, post, by rw [heq]; rfl, htr⟩
  | case2 e1 e2 e3 rest hc1 hc2 ih =>
      intro h
      rw [show wavesScan (e1 :: e2 :: e3 :: rest) =
          addWave WaveType.P [e1.1, e2.1, e3.1] (wavesScan rest) from by
        simp [wavesScan, hc1, hc2]] at h
      rcases mem_addWave_get h with ⟨-, rfl⟩ | h'
      · exact ⟨e1, e2, e3, [], rest, rfl, rfl⟩
      · obtain ⟨f1, f2, f3, pre, post, heq, htr⟩ := ih h'
        exact ⟨f1, f2, f3, e1 :: e2 :: e3 :: pre, post, by rw [heq]; rfl, htr⟩
  | case3 e1 e2 e3 rest hc1 hc2 hc3 ih =>
      intro h
      rw [show wavesScan (e1 :: e2 :: e3 :: rest) =
          addWave WaveType.T [e1.1, e2.1, e3.1] (wavesScan rest) from by
        simp [wavesScan, hc1, hc2, hc3]] at h
      rcases mem_addWave_get h with ⟨-, rfl⟩ | h'
      · exact ⟨e1, e2, e3, [], rest, rfl, rfl⟩
      · obtain ⟨f1, f2, f3, pre, post, heq, htr⟩ := ih h'
        exact ⟨f1, f2, f3, e1 :: e2 :: e3 :: pre, post, by rw [heq]; rfl, htr⟩
  | case4 e1 e2 e3 rest hc1 hc2 hc3 ih =>
      intro h
      rw [show wavesScan (e1 :: e2 :: e3 :: rest) = wavesScan (e2 :: e3 :: rest) from by
        simp [wavesScan, hc1, hc2, hc3]] at h
      obtain ⟨f1, f2, f3, pre, post, heq, htr⟩ := ih h
      exact ⟨f1, f2, f3, e1 :: pre, post, by rw [List.cons_append, ← heq], htr⟩
  | case5 l hno =>
      intro h
      have hempty : wavesScan l = emptyWaves := by
        rcases l with _ | ⟨a, _ | ⟨b, _ | ⟨c, tl⟩⟩⟩
        · rfl
        · rfl
        · rfl
        · exact absurd rfl (fun he => hno a b c tl he)
      rw [hempty] at h
      cases w <;> simp [emptyWaves, WavesDict.get] at h

lemma rescalePixel_mono {i j S W : Nat} (h : i ≤ j) :
    rescalePixel i S W ≤ rescalePixel j S W := by
  unfold rescalePixel
  rw [Nat.zero_max, Nat.zero_max]
  exact min_le_min (Nat.div_le_div_right h) (le_refl _)

lemma rescalePixel_lt {i S W : Nat} (hW : 1 ≤ W) : rescalePixel i S W < W := by
  unfold rescalePixel
  rw [Nat.zero_max]
  exact lt_of_le_of_lt (Nat.min_le_right _ _) (by omega)

/-- C5: every wave triplet produced by rescaling a sequence of annotation
events ordered by sample index and then grouping them is a 3-element list
of pixel coordinates satisfying x1 ≤ x2 ≤ x3 < image width (and
trivially 0 ≤ x1 in ℕ), carries a wave type ranging over the bucket type
{P, QRS, T}, and its three coordinates are exactly the pixel values of
three consecutive rescaled events in their original scan order — never
reordered. -/
theorem pipeline_triplet_invariant (events : List (Nat × Char)) (S W : Nat)
    (hS : 1 ≤ S) (hW : 1 ≤ W)
    (hsorted : events.Pairwise (fun e f => e.1 ≤ f.1))
    (w : WaveType) (tr : List Nat)
    (htr : tr ∈ (pipelineWaves events S W).get w) :
    ∃ x1 x2 x3 y1 y2 y3 pre post,
      tr = [x1, x2, x3] ∧ x1 ≤ x2 ∧ x2 ≤ x3 ∧ x3 < W ∧
      rescaleEvents events S W = pre ++ (x1, y1) :: (x2, y2) :: (x3, y3) :: post := by
  obtain ⟨e1, e2, e3, pre, post, hdec, htr'⟩ :=
    wavesScan_mem_shape w tr (rescaleEvents events S W) htr
  have hpw : (rescaleEvents events S W).Pairwise (fun e f => e.1 ≤ f.1) := by
    unfold rescaleEvents
    exact hsorted.map _ (fun a b hab => rescalePixel_mono hab)
  have hsub : [e1, e2, e3].Sublist (rescaleEvents events S W) := by
    rw [hdec]
    exact (List.sublist_append_left [e1, e2, e3] post).trans
      (List.sublist_append_right pre _)
  have h3 := List.Pairwise.sublist hsub hpw
  simp only [List.pairwise_cons, List.mem_cons, List.mem_singleton] at h3
  have h12 : e1.1 ≤ e2.1 := h3.1 e2 (Or.inl rfl)
  have h23 : e2.1 ≤ e3.1 := h3.2.1 e3 (Or.inl rfl)
  have hlt : e3.1 < W := by
    have hm : e3 ∈ rescaleEvents events S W := by
      rw [hdec]; simp
    unfold rescaleEvents at hm
    obtain ⟨a, -, rfl⟩ := List.mem_map.mp hm
    exact rescalePixel_lt hW
  exact ⟨e1.1, e2.1, e3.1, e1.2, e2.2, e3.2, pre, post, htr', h12, h23, hlt, hdec⟩

/-- C5 (witness): the sorted annotation window [(10,'('), (15,'p'),
(20,')')] under the fine granularity yields the P triplet [5, 7, 10],
which satisfies the invariant. -/
theorem pipeline_triplet_invariant_witness :
    [5, 7, 10] ∈ (pipelineWaves [(10, '('), (15, 'p'), (20, ')')] 2 504).get WaveType.P ∧
    (∃ x1 x2 x3 y1 y2 y3 pre post,
      ([5, 7, 10] : List Nat) = [x1, x2, x3] ∧ x1 ≤ x2 ∧ x2 ≤ x3 ∧ x3 < 504 ∧
      rescaleEvents [(10, '('), (15, 'p'), (20, ')')] 2 504 =
        pre ++ (x1, y1) :: (x2, y2) :: (x3, y3) :: post) :=
  ⟨by decide,
   pipeline_triplet_invariant [(10, '('), (15, 'p'), (20, ')')] 2 504
     (by decide) (by decide) (by decide) WaveType.P [5, 7, 10] (by decide)⟩

lemma pyStrAux_digits :
    ∀ fuel n acc, (∀ c ∈ acc, c.isDigit = true) →
      ∀ c ∈ pyStrAux fuel n acc, c.isDigit = true := by
  intro fuel
  induction fuel with
  | zero => intro n acc hacc c hc; exact hacc c hc
  | succ fuel ih =>
      intro n acc hacc c hc
      simp only [pyStrAux] at hc
      split at hc
      · exact hacc c hc
      · refine ih (n / 10) _ ?_ c hc
        intro d hd
        rcases List.mem_cons.mp hd with h | h
        · subst h
          have hdig : ∀ m, m < 10 → (Char.ofNat ('0'.toNat + m)).isDigit = true := by
            decide
          exact hdig _ (Nat.mod_lt _ (by norm_num))
        · exact hacc d h

/-- C8: the coordinate tag wire format is generated with integer
coordinate attributes only — the serializer casts each coordinate to int
and renders it as a pure digit string — while the precision parsing side
accepts both integer and one-decimal coordinate attribute values. -/
theorem wire_format_int_out_decimal_in :
    (∀ n : Nat, ∀ c ∈ (pyStr n).toList, c.isDigit = true) ∧
    extract_coordinates_strs (serializeTriplet [12, 34, 56] ("P")) =
      ["12", "34", "56"] ∧
    extract_coordinates_strs
      ("<points x1=\"12.3\" x2=\"45.6\" x3=\"78.9\" alt=\"P\">P</points>") =
      ["12.3", "45.6", "78.9"] := by
  refine ⟨?_, rfl, rfl⟩
  intro n c hc
  unfold pyStr at hc
  split at hc
  · simp [String.toList] at hc
    subst hc
    decide
  · exact pyStrAux_digits n n [] (by simp) c hc

/-- C8 (witness): instantiating the digit-only clause at the serialized
coordinate 12. -/
theorem wire_format_int_out_decimal_in_witness :
    '1' ∈ (pyStr 12).toList ∧ '1'.isDigit = true :=
  ⟨by decide, wire_format_int_out_decimal_in.1 12 '1' (by decide)⟩

lemma chunkPairs_flatMap {α : Type} (f g : Nat → α) (pairs : List Nat) :
    chunkPairs (pairs.flatMap (fun i => [f i, g i])) =
      pairs.map (fun i => (f i, g i)) := by
  induction pairs with
  | nil => rfl
  | cons i tl ih =>
      rw [List.map_cons, ← ih]
      rfl

lemma flatMap_two_length {α : Type} (f g : Nat → α) (pairs : List Nat) :
    (pairs.flatMap (fun i => [f i, g i])).length = 2 * pairs.length := by
  induction pairs with
  | nil => rfl
  | cons i tl ih =>
      rw [show (i :: tl).flatMap (fun i => [f i, g i]) =
        f i :: g i :: tl.flatMap (fun i => [f i, g i]) from rfl]
      simp only [List.length_cons, ih]
      omega

lemma chunkPairs_getD {α : Type} [Inhabited α] :
    ∀ convo : List α, convo.length % 2 = 0 →
      (pairStarts convo.length).map
        (fun i => (convo.getD i default, convo.getD (i + 1) default)) =
      chunkPairs convo := by
  intro convo
  induction convo using chunkPairs.induct with
  | case1 a b rest ih =>
      intro hev
      have hev' : rest.length % 2 = 0 := by
        simp only [List.length_cons] at hev
        omega
      have hdiv : (a :: b :: rest).length / 2 = rest.length / 2 + 1 := by
        simp only [List.length_cons]
        omega
      rw [show chunkPairs (a :: b :: rest) = (a, b) :: chunkPairs rest from rfl]
      rw [← ih hev']
      unfold pairStarts
      rw [hdiv, List.range_succ_eq_map]
      simp only [List.map_cons, List.map_map, Nat.zero_mul]
      congr 1
      apply List.map_congr_left
      intro k hk
      simp only [Function.comp_apply]
      have h1 : Nat.succ k * 2 = k * 2 + 1 + 1 := by
        simp [Nat.succ_eq_add_one]
        ring
      rw [h1]
      rw [show k * 2 + 1 + 1 + 1 = (k * 2 + 1 + 1) + 1 from rfl]
      rw [List.getD_cons_succ, List.getD_cons_succ, List.getD_cons_succ,
        List.getD_cons_succ]
  | case2 t hno =>
      intro hev
      rcases t with _ | ⟨a, _ | ⟨b, tl⟩⟩
      · simp [pairStarts, chunkPairs]
      · simp at hev
      · exact absurd rfl (hno a b tl)

/-- C10: for every conversation list of even length, pairwise_shuffle
returns a list of the same length whose consecutive (human, gpt) pairs
are a permutation of the input's consecutive pairs — so each turn at an
even index is still immediately followed by the turn that originally
followed it — and for every conversation of odd length the assertion
fails (modelled as `none`) instead of returning a list. -/
theorem pairwise_shuffle_spec {α : Type} [Inhabited α]
    (convo : List α) (pairs : List Nat)
    (hperm : pairs.Perm (pairStarts convo.length)) :
    (convo.length % 2 = 0 →
      ∃ out, pairwise_shuffle convo pairs = some out ∧
        out.length = convo.length ∧ (chunkPairs out).Perm (chunkPairs convo)) ∧
    (convo.length % 2 = 1 → pairwise_shuffle convo pairs = none) := by
  constructor
  · intro hev
    refine ⟨pairs.flatMap (fun i => [convo.getD i default, convo.getD (i + 1) default]),
      by simp [pairwise_shuffle, hev], ?_, ?_⟩
    · rw [flatMap_two_length]
      have hlen : pairs.length = (pairStarts convo.length).length := hperm.length_eq
      rw [hlen]
      unfold pairStarts
      rw [List.length_map, List.length_range]
      omega
    · rw [chunkPairs_flatMap]
      have h2 := hperm.map (fun i => (convo.getD i default, convo.getD (i + 1) default))
      rw [chunkPairs_getD convo hev] at h2
      exact h2
  · intro hodd
    simp [pairwise_shuffle]
    omega

/-- C10 (witness): shuffling the 4-turn conversation [1, 2, 3, 4] with
the permuted pair starts [2, 0] keeps both (1, 2) and (3, 4) adjacent. -/
theorem pairwise_shuffle_spec_witness :
    ([2, 0] : List Nat).Perm (pairStarts ([1, 2, 3, 4] : List Nat).length) ∧
    (∃ out, pairwise_shuffle ([1, 2, 3, 4] : List Nat) [2, 0] = some out ∧
      out.length = ([1, 2, 3, 4] : List Nat).length ∧
      (chunkPairs out).Perm (chunkPairs ([1, 2, 3, 4] : List Nat))) :=
  ⟨by decide,
   (pairwise_shuffle_spec ([1, 2, 3, 4] : List Nat) [2, 0] (by decide)).1 (by decide)⟩
